import Mathlib

/-!
Verification development for the directory-traversal and entry-synthesis core
(`src/fs/dir.rs`): manifest resolution, ghost-entry synthesis, and the listing
iterator. Paths are modelled as a flag for absoluteness plus a list of normal
components; the filesystem (existence checks, canonicalization, manifest
reading, directory reading, the current working directory) is an abstract
structure of functions, so every theorem quantifies over all filesystems.
Recursions that walk up a path's ancestor chain are written with an explicit
fuel argument equal to the component count plus one, which bounds the walk
exactly as the ancestor chain does in the source; this keeps every definition
executable by kernel reduction.
-/

namespace Wls

/-- A filesystem path: whether it is absolute, plus its normal components.
Mirrors `std::path::PathBuf` restricted to the shapes this code builds. -/
structure RPath where
  abs : Bool
  comps : List String
deriving DecidableEq

/-- Append relative components onto a path, as `PathBuf::join` does for a
relative right-hand side (the only shape joined in this code). -/
def RPath.join (p : RPath) (segs : List String) : RPath :=
  ⟨p.abs, p.comps ++ segs⟩

/-- The final component of a path, as `Path::file_name` (none for a root). -/
def RPath.fileName (p : RPath) : Option String :=
  p.comps.getLast?

/-- The parent of a path, as `Path::parent`: none once the components are
exhausted (the parent of `/` is none). -/
def RPath.parent (p : RPath) : Option RPath :=
  if p.comps.isEmpty then none else some ⟨p.abs, p.comps.dropLast⟩

/-- Whether the path renders as the empty string (`as_os_str().is_empty()`):
only a relative path with no components. -/
def RPath.osStrEmpty (p : RPath) : Bool :=
  !p.abs && p.comps.isEmpty

theorem RPath.parent_comps_lt {p q : RPath} (h : p.parent = some q) :
    q.comps.length < p.comps.length := by
  unfold RPath.parent at h
  split at h
  · exact absurd h (by simp)
  · rename_i hne
    cases h
    rw [List.isEmpty_iff] at hne
    have := List.length_dropLast p.comps
    have hpos : 0 < p.comps.length := List.length_pos_of_ne_nil hne
    simp only []
    omega

/-- Strip a root path from a path, as `Path::strip_prefix`: succeeds exactly
when the absoluteness matches and the root's components are a prefix, and
returns the remaining components. -/
def stripRoot (root p : RPath) : Option (List String) :=
  if root.abs = p.abs ∧ root.comps <+: p.comps then
    some (p.comps.drop root.comps.length)
  else none

/-- Whether one string starts with another, at the character level (the
library's `String.isPrefixOf` computes the same predicate, but this form
reduces in the kernel). -/
def strIsPrefixOf (pfx s : String) : Bool :=
  pfx.data.isPrefixOf s.data

/-- Strip a string off the front of another, as `str::strip_prefix`. -/
def stripPrefixStr (pfx s : String) : Option String :=
  if strIsPrefixOf pfx s then some (s.drop pfx.length) else none

/-- The first `/`-separated component of a string, as
`s.split('/').next().unwrap()`: the characters up to the first slash. -/
def firstComponent (s : String) : String :=
  ⟨s.data.takeWhile (fun c => c ≠ '/')⟩

/-- A raw directory entry as handed back by `fs::read_dir`: its path, and
whether `file_type()` succeeded and reported a directory. -/
structure DirEntry where
  epath : RPath
  fileTypeIsDir : Option Bool
deriving DecidableEq

/-- Modelled from the spec: the git-status capability distinguishes at least
"ignored" from all other states (`crate::fs::fields::GitStatus` is outside
this layer's source). -/
inductive GitStatus where
  | Ignored
  | NotIgnored
deriving DecidableEq

/-- Modelled from the spec: the pair of statuses returned by a git lookup;
this core only reads the `unstaged` half. -/
structure GitPair where
  unstaged : GitStatus
deriving DecidableEq

/-- Modelled from the spec: the default git status used when no git capability
is present is "never ignored". -/
def GitPair.dflt : GitPair := ⟨GitStatus.NotIgnored⟩

/-- Modelled from the spec: the external git-status capability, a lookup from
a path and a follow-symlink flag to a status (`GitCache` is outside this
layer's source). -/
structure GitCache where
  get : RPath → Bool → GitPair

/-- Cached manifest information for a src root. -/
structure ManifestInfo where
  src_root : RPath
  entries : List String
deriving DecidableEq

/-- Check if a target path (relative to `src_root`) is a zone. -/
def ManifestInfo.is_zone (mi : ManifestInfo) (target_path : String) : Bool :=
  decide (target_path ∈ mi.entries)

/-- Build the target path string for a file given its canonical path. -/
def ManifestInfo.target_path_for (mi : ManifestInfo) (canonical_path : RPath) :
    Option String :=
  match stripRoot mi.src_root canonical_path with
  | none => none
  | some rel => if rel.isEmpty then none else some ("//" ++ String.intercalate "/" rel)

/-- The ambient filesystem, abstracted: every operation the source performs
against the OS, as a pure function. -/
structure FSModel where
  pathExists : RPath → Bool
  canonicalize : RPath → Option RPath
  cwd : Option RPath
  readManifest : RPath → Option (List String)
  readDir : RPath → Except Nat (List (Except Nat DirEntry))

/-- Fuelled body of the src-root search: at each ancestor named `src` with a
manifest file present, stop; otherwise step to the parent. The fuel is a
structural bound on the ancestor chain. -/
def findSrcRootFuel (fs : FSModel) : Nat → RPath → Option RPath
  | 0, _ => none
  | Nat.succ n, p =>
    if p.fileName = some "src" ∧ fs.pathExists (p.join [".meta", "manifest.json"]) = true then
      some p
    else
      match p.parent with
      | some q => findSrcRootFuel fs n q
      | none => none

/-- The ancestor-walk of `find_manifest_from_canonical`: the nearest ancestor
named `src` that has a manifest file at `.meta/manifest.json`. -/
def findSrcRoot (fs : FSModel) (p : RPath) : Option RPath :=
  findSrcRootFuel fs (p.comps.length + 1) p

/-- Resolve the manifest governing an already-canonical path: find the src
root, then open and parse the manifest there; any failure yields none. -/
def find_manifest_from_canonical (fs : FSModel) (canonical_path : RPath) :
    Option ManifestInfo :=
  match findSrcRoot fs canonical_path with
  | none => none
  | some src_root =>
    match fs.readManifest (src_root.join [".meta", "manifest.json"]) with
    | none => none
    | some keys => some ⟨src_root, keys⟩

/-- Find manifest by walking up from the given path looking for
`src/.meta/manifest.json`; canonicalization failure yields none. -/
def find_manifest (fs : FSModel) (start_path : RPath) : Option ManifestInfo :=
  match fs.canonicalize start_path with
  | none => none
  | some p => find_manifest_from_canonical fs p

/-- Fuelled walk up to the nearest existing ancestor, collecting the names of
the missing components deepest-first (they are reversed by the caller). The
walk stops with none when the parent chain runs out or the parent renders as
the empty string. -/
def walkUpFuel (fs : FSModel) : Nat → RPath → List String → Option (RPath × List String)
  | 0, _, _ => none
  | Nat.succ n, p, acc =>
    if fs.pathExists p then some (p, acc)
    else
      let acc2 := match p.fileName with
        | some name => acc ++ [name]
        | none => acc
      match p.parent with
      | some q => if q.osStrEmpty then none else walkUpFuel fs n q acc2
      | none => none

/-- The ancestor walk of `find_manifest_for_ghost`. -/
def walkUp (fs : FSModel) (p : RPath) : Option (RPath × List String) :=
  walkUpFuel fs (p.comps.length + 1) p []

/-- Find manifest for a path that may not exist on disk: make it absolute
against the current working directory if needed, walk up to the nearest
existing ancestor, canonicalize that, re-append the collected ghost
components, and resolve the manifest from the existing ancestor. -/
def find_manifest_for_ghost (fs : FSModel) (start_path : RPath) :
    Option (ManifestInfo × RPath) :=
  let absolute? : Option RPath :=
    if start_path.abs then some start_path
    else
      match fs.cwd with
      | some cwd => some (cwd.join start_path.comps)
      | none => none
  match absolute? with
  | none => none
  | some sp =>
    match walkUp fs sp with
    | none => none
    | some (existing_ancestor, ghost_acc) =>
      let ghost_suffix_components := ghost_acc.reverse
      match fs.canonicalize existing_ancestor with
      | none => none
      | some canonical_ancestor =>
        let full_path := canonical_ancestor.join ghost_suffix_components
        match find_manifest_from_canonical fs canonical_ancestor with
        | none => none
        | some manifest_info => some (manifest_info, full_path)

/-- Check if a non-existent path is a valid ghost directory: it must have at
least one declared manifest descendant. -/
def is_valid_ghost_dir (fs : FSModel) (path : RPath) :
    Option (ManifestInfo × RPath) :=
  match find_manifest_for_ghost fs path with
  | none => none
  | some (manifest_info, canonical_path) =>
    match stripRoot manifest_info.src_root canonical_path with
    | none => none
    | some rel_path =>
      let pfx := "//" ++ String.intercalate "/" rel_path ++ "/"
      let has_children := manifest_info.entries.any (fun key => strIsPrefixOf pfx key)
      if has_children then some (manifest_info, canonical_path) else none

/-- A snapshot of one directory being listed: the raw entries read from the
OS at most once, the path as given, and (for ghost directories only) the
pre-resolved manifest context and canonical path. -/
structure Dir where
  contents : List DirEntry
  path : RPath
  ghost_info : Option (ManifestInfo × RPath)
deriving DecidableEq

/-- Create a new, empty `Dir` representing the directory at the given path;
no read is performed. -/
def Dir.new (path : RPath) : Dir :=
  ⟨[], path, none⟩

/-- Create a new `Dir` for a ghost directory that does not exist on disk,
with its pre-computed manifest info and canonical path. -/
def Dir.new_ghost (path : RPath) (manifest_info : ManifestInfo)
    (canonical_path : RPath) : Dir :=
  ⟨[], path, some (manifest_info, canonical_path)⟩

/-- Returns true if this is a ghost directory. -/
def Dir.is_ghost (d : Dir) : Bool :=
  d.ghost_info.isSome

/-- Collect a sequence of per-entry results into a result of a sequence,
stopping at the first error, as `collect::\x7bResult<Vec<_>, _>\x7d` does. -/
def collectResults : List (Except Nat DirEntry) → Except Nat (List DirEntry)
  | [] => Except.ok []
  | Except.error e :: _ => Except.error e
  | Except.ok a :: rest =>
    match collectResults rest with
    | Except.error e => Except.error e
    | Except.ok as => Except.ok (a :: as)

/-- Read the contents of the directory: a no-op success for a ghost
directory, otherwise one OS directory read whose outcome replaces the
contents on success and leaves the snapshot untouched on any error. The
mutable receiver of the source is modelled by returning the updated snapshot
alongside the optional error. -/
def Dir.read (fs : FSModel) (d : Dir) : Dir × Option Nat :=
  if d.ghost_info.isSome then (d, none)
  else
    match fs.readDir d.path with
    | Except.error e => (d, some e)
    | Except.ok items =>
      match collectResults items with
      | Except.error e => (d, some e)
      | Except.ok entries => ({ d with contents := entries }, none)

/-- Whether this directory contains a file with the given path. -/
def Dir.containsPath (d : Dir) (p : RPath) : Bool :=
  d.contents.any (fun e => decide (e.epath = p))

/-- Append a path onto the path specified by this directory. -/
def Dir.joinPath (d : Dir) (child : List String) : RPath :=
  d.path.join child

/-- How a listing entry arose; lets theorems tell pseudo-entries, real
entries and ghosts apart. -/
inductive FileKind where
  | current
  | parentDir
  | real
  | ghost
deriving DecidableEq

/-- Modelled from the spec: a listing entry is opaque beyond its filename,
whether it is a directory, and its zone flag (`crate::fs::File` is outside
this layer's source); the kind records which constructor produced it. -/
structure File where
  kind : FileKind
  fpath : RPath
  name : String
  isDir : Bool
  is_zone : Bool
deriving DecidableEq

/-- Modelled from the spec: the filename of an entry is its last path
component. -/
def File.filename (p : RPath) : String :=
  (p.comps.getLast?).getD ""

/-- Modelled from the spec: build a listing entry for a real OS entry; the
zone flag starts unset, and directoryness comes from the entry's reported
file type. -/
def File.from_args (path : RPath) (_dir : Dir) (filename : String)
    (_deref_links _total_size : Bool) (fileTypeIsDir : Option Bool) : File :=
  ⟨FileKind.real, path, filename, fileTypeIsDir.getD false, false⟩

/-- Modelled from the spec: build a ghost listing entry (a virtual directory)
with the given name and zone flag. -/
def File.new_ghost (path : RPath) (_dir : Dir) (name : String)
    (is_zone : Bool) : File :=
  ⟨FileKind.ghost, path, name, true, is_zone⟩

/-- Modelled from the spec: the synthetic `.` entry for the directory
itself. -/
def File.new_aa_current (d : Dir) (_total_size : Bool) : File :=
  ⟨FileKind.current, d.path, ".", true, false⟩

/-- Modelled from the spec: the synthetic `..` entry for the parent, built
from the precomputed parent path. -/
def File.new_aa_parent (path : RPath) (_dir : Dir) (_total_size : Bool) : File :=
  ⟨FileKind.parentDir, path, "..", true, false⟩

/-- The canonical path `get_ghosts` works with: the pre-computed one for a
ghost directory, otherwise the canonicalization of the directory's path. -/
def dirCanonical (fs : FSModel) (dir : Dir) (ghost_canonical : Option RPath) :
    Option RPath :=
  match ghost_canonical with
  | some p => some p
  | none => fs.canonicalize dir.path

/-- The logical prefix `get_ghosts` computes for a directory: `//` when the
directory is the src root itself, otherwise `//` + relative path + `/`. -/
def dirPrefixStr (src_root canonical_path : RPath) : Option String :=
  match stripRoot src_root canonical_path with
  | none => none
  | some rel =>
    some (if rel.isEmpty then "//" else "//" ++ String.intercalate "/" rel ++ "/")

/-- The filenames already present physically in the snapshot. -/
def existingNames (dir : Dir) : List String :=
  dir.contents.map (fun e => File.filename e.epath)

/-- One step of the ghost-name collection: a manifest key contributes the
first component of its remainder after the directory's prefix, unless that
component is empty, already physical, or already collected. -/
def ghostStep (pfx : String) (existing : List String) (acc : List String)
    (key : String) : List String :=
  match stripPrefixStr pfx key with
  | none => acc
  | some suffix =>
    if suffix = "" then acc
    else
      let fc := firstComponent suffix
      if fc ∈ existing then acc
      else if fc ∈ acc then acc else acc ++ [fc]

/-- The distinct ghost names for a directory: fold the collection step over
the manifest entries (the underlying hash set's enumeration order is
unspecified; the model enumerates the entry list). -/
def ghostNames (entries : List String) (pfx : String)
    (existing : List String) : List String :=
  entries.foldl (ghostStep pfx existing) []

/-- Synthesize the ghost entries for a directory: nothing without a manifest,
a canonical path, and a prefix under the src root; otherwise one ghost per
collected name, its zone flag set exactly when prefix + name is a literal
manifest entry. -/
def get_ghosts (fs : FSModel) (dir : Dir) (manifest_info : Option ManifestInfo)
    (ghost_canonical : Option RPath) : List File :=
  match manifest_info with
  | none => []
  | some mi =>
    match dirCanonical fs dir ghost_canonical with
    | none => []
    | some canonical_path =>
      match dirPrefixStr mi.src_root canonical_path with
      | none => []
      | some pfx =>
        let existing_names := existingNames dir
        let ghost_names := ghostNames mi.entries pfx existing_names
        ghost_names.map (fun name =>
          File.new_ghost (dir.path.join [name]) dir name (mi.is_zone (pfx ++ name)))

/-- The dot directories that still need to be listed before actual files. -/
inductive DotsNext where
  | Dot
  | DotDot
  | Files
deriving DecidableEq

/-- Dot-filter policy: show everything, hide only `.` and `..`, or hide all
dotfiles. -/
inductive DotFilter where
  | DotfilesAndDots
  | Dotfiles
  | JustFiles
deriving DecidableEq

/-- Whether this filter should show dotfiles in a listing. -/
def DotFilter.shows_dotfiles : DotFilter → Bool
  | DotFilter.JustFiles => false
  | DotFilter.Dotfiles => true
  | DotFilter.DotfilesAndDots => true

/-- Whether this filter should add dot directories to a listing. -/
def DotFilter.dots : DotFilter → DotsNext
  | DotFilter.JustFiles => DotsNext.Files
  | DotFilter.Dotfiles => DotsNext.Files
  | DotFilter.DotfilesAndDots => DotsNext.Dot

/-- The listing iterator's state: the remaining raw entries, the directory,
the configuration, the remaining ghost entries, and the manifest context. -/
structure Files where
  inner : List DirEntry
  dir : Dir
  dotfiles : Bool
  dots : DotsNext
  git : Option GitCache
  git_ignoring : Bool
  deref_links : Bool
  total_size : Bool
  ghosts : List File
  manifest_info : Option ManifestInfo

/-- Construct the listing iterator for a snapshot: use the pre-loaded
manifest for a ghost directory, otherwise resolve one now; synthesize the
ghost entries unless suppressed. -/
def Dir.files (fs : FSModel) (d : Dir) (dots : DotFilter)
    (git : Option GitCache) (git_ignoring deref_links total_size no_ghosts : Bool) :
    Files :=
  let mi_gc : Option ManifestInfo × Option RPath :=
    match d.ghost_info with
    | some (m, c) => (some m, some c)
    | none => (find_manifest fs d.path, none)
  let manifest_info := mi_gc.1
  let ghost_canonical := mi_gc.2
  let ghosts := if no_ghosts then [] else get_ghosts fs d manifest_info ghost_canonical
  { inner := d.contents, dir := d, dotfiles := dots.shows_dotfiles,
    dots := dots.dots, git := git, git_ignoring := git_ignoring,
    deref_links := deref_links, total_size := total_size, ghosts := ghosts,
    manifest_info := manifest_info }

/-- The parent path used for the `..` pseudo-entry: the directory's path with
`..` appended (not the last component trimmed, which breaks for relative
paths). -/
def Files.parentPath (f : Files) : RPath :=
  f.dir.path.join [".."]

/-- Whether an entry is filtered out as hidden: dotfiles are hidden and the
filename starts with a dot. -/
def entryHidden (dotfiles : Bool) (e : DirEntry) : Bool :=
  !dotfiles && strIsPrefixOf "." (File.filename e.epath)

/-- Whether an entry is filtered out by git: git-ignore filtering is on and
the lookup (defaulting to "never ignored" without a capability) reports
ignored. -/
def entryGitIgnored (git : Option GitCache) (git_ignoring : Bool)
    (e : DirEntry) : Bool :=
  git_ignoring &&
    decide ((match git with
      | some g => g.get e.epath false
      | none => GitPair.dflt).unstaged = GitStatus.Ignored)

/-- Build the listing entry for a surviving real entry: construct it, then,
if it is a directory and manifest context is available and its path
canonicalizes under the src root, set its zone flag from the manifest. -/
def buildRealFile (fs : FSModel) (dir : Dir) (deref_links total_size : Bool)
    (manifest_info : Option ManifestInfo) (e : DirEntry) : File :=
  let path := e.epath
  let filename := File.filename path
  let file := File.from_args path dir filename deref_links total_size e.fileTypeIsDir
  if file.isDir then
    match manifest_info with
    | some manifest =>
      match fs.canonicalize path with
      | some canonical =>
        match manifest.target_path_for canonical with
        | some target => { file with is_zone := manifest.is_zone target }
        | none => file
      | none => file
    | none => file
  else file

/-- The scan of `next_visible_file` over the remaining raw entries: skip
hidden and git-ignored entries, and return the first survivor (built into a
listing entry) together with the entries left after it. -/
def nextVisibleAux (fs : FSModel) (dir : Dir) (dotfiles : Bool)
    (git : Option GitCache) (git_ignoring deref_links total_size : Bool)
    (manifest_info : Option ManifestInfo) :
    List DirEntry → Option File × List DirEntry
  | [] => (none, [])
  | e :: rest =>
    if entryHidden dotfiles e then
      nextVisibleAux fs dir dotfiles git git_ignoring deref_links total_size manifest_info rest
    else if entryGitIgnored git git_ignoring e then
      nextVisibleAux fs dir dotfiles git git_ignoring deref_links total_size manifest_info rest
    else (some (buildRealFile fs dir deref_links total_size manifest_info e), rest)

/-- Go through the directory until we encounter a file we can list, updating
the iterator's remaining entries. -/
def Files.next_visible_file (fs : FSModel) (f : Files) : Option File × Files :=
  match nextVisibleAux fs f.dir f.dotfiles f.git f.git_ignoring f.deref_links
      f.total_size f.manifest_info f.inner with
  | (r, rest) => (r, { f with inner := rest })

/-- One step of the listing iterator: `.` first, then `..`, then the next
visible real entry, then the next ghost entry, then nothing. -/
def Files.next (fs : FSModel) (f : Files) : Option (File × Files) :=
  match f.dots with
  | DotsNext.Dot =>
    some (File.new_aa_current f.dir f.total_size, { f with dots := DotsNext.DotDot })
  | DotsNext.DotDot =>
    some (File.new_aa_parent (Files.parentPath f) f.dir f.total_size,
      { f with dots := DotsNext.Files })
  | DotsNext.Files =>
    match nextVisibleAux fs f.dir f.dotfiles f.git f.git_ignoring f.deref_links
        f.total_size f.manifest_info f.inner with
    | (some file, rest) => some (file, { f with inner := rest })
    | (none, rest) =>
      match f.ghosts with
      | [] => none
      | g :: gs => some (g, { f with inner := rest, ghosts := gs })

/-- How many pseudo-entry steps remain before the real files. -/
def DotsNext.rank : DotsNext → Nat
  | DotsNext.Dot => 2
  | DotsNext.DotDot => 1
  | DotsNext.Files => 0

/-- An upper-bound measure on how many entries the iterator may still
yield. -/
def Files.rem (f : Files) : Nat :=
  f.dots.rank + f.inner.length + f.ghosts.length

/-- Pull at most `fuel` entries from the iterator. -/
def drain (fs : FSModel) : Nat → Files → List File
  | 0, _ => []
  | Nat.succ n, f =>
    match Files.next fs f with
    | none => []
    | some (file, f2) => file :: drain fs n f2

/-- Every entry the iterator yields, in order (the measure bounds the number
of steps, so the fuel is always sufficient). -/
def Files.toList (fs : FSModel) (f : Files) : List File :=
  drain fs (Files.rem f + 1) f

/-- The entries the surviving real files contribute, in underlying read
order. -/
def visibleAux (fs : FSModel) (dir : Dir) (dotfiles : Bool)
    (git : Option GitCache) (git_ignoring deref_links total_size : Bool)
    (manifest_info : Option ManifestInfo) : List DirEntry → List File
  | [] => []
  | e :: rest =>
    if entryHidden dotfiles e then
      visibleAux fs dir dotfiles git git_ignoring deref_links total_size manifest_info rest
    else if entryGitIgnored git git_ignoring e then
      visibleAux fs dir dotfiles git git_ignoring deref_links total_size manifest_info rest
    else
      buildRealFile fs dir deref_links total_size manifest_info e ::
        visibleAux fs dir dotfiles git git_ignoring deref_links total_size manifest_info rest

/-- The filtered real entries an iterator state will still emit. -/
def Files.visibleList (fs : FSModel) (f : Files) : List File :=
  visibleAux fs f.dir f.dotfiles f.git f.git_ignoring f.deref_links
    f.total_size f.manifest_info f.inner

/-- The pseudo-entries an iterator state will still emit. -/
def Files.dotsList (f : Files) : List File :=
  match f.dots with
  | DotsNext.Dot =>
    [File.new_aa_current f.dir f.total_size,
     File.new_aa_parent (Files.parentPath f) f.dir f.total_size]
  | DotsNext.DotDot =>
    [File.new_aa_parent (Files.parentPath f) f.dir f.total_size]
  | DotsNext.Files => []

theorem nva_spec (fs : FSModel) (dir : Dir) (df : Bool) (git : Option GitCache)
    (gi dl ts : Bool) (mi : Option ManifestInfo) :
    ∀ l : List DirEntry,
      (∀ rest, nextVisibleAux fs dir df git gi dl ts mi l = (none, rest) →
        visibleAux fs dir df git gi dl ts mi l = [] ∧ rest = []) ∧
      (∀ file rest, nextVisibleAux fs dir df git gi dl ts mi l = (some file, rest) →
        visibleAux fs dir df git gi dl ts mi l =
          file :: visibleAux fs dir df git gi dl ts mi rest ∧
        rest.length < l.length) := by
  intro l
  induction l with
  | nil =>
    refine ⟨?_, ?_⟩
    · intro rest h
      simp only [nextVisibleAux] at h
      cases h
      exact ⟨rfl, rfl⟩
    · intro file rest h
      simp only [nextVisibleAux] at h
      cases h
  | cons e l ih =>
    by_cases h1 : entryHidden df e = true
    · refine ⟨?_, ?_⟩
      · intro rest h
        simp only [nextVisibleAux, if_pos h1] at h
        simpa only [visibleAux, if_pos h1] using ih.1 rest h
      · intro file rest h
        simp only [nextVisibleAux, if_pos h1] at h
        have := ih.2 file rest h
        exact ⟨by simpa only [visibleAux, if_pos h1] using this.1,
          Nat.lt_succ_of_lt this.2⟩
    · by_cases h2 : entryGitIgnored git gi e = true
      · refine ⟨?_, ?_⟩
        · intro rest h
          simp only [nextVisibleAux, if_neg h1, if_pos h2] at h
          simpa only [visibleAux, if_neg h1, if_pos h2] using ih.1 rest h
        · intro file rest h
          simp only [nextVisibleAux, if_neg h1, if_pos h2] at h
          have := ih.2 file rest h
          exact ⟨by simpa only [visibleAux, if_neg h1, if_pos h2] using this.1,
            Nat.lt_succ_of_lt this.2⟩
      · refine ⟨?_, ?_⟩
        · intro rest h
          simp only [nextVisibleAux, if_neg h1, if_neg h2] at h
          cases h
        · intro file rest h
          simp only [nextVisibleAux, if_neg h1, if_neg h2] at h
          cases h
          refine ⟨?_, Nat.lt_succ_self _⟩
          simp only [visibleAux, if_neg h1, if_neg h2]

theorem drain_spec (fs : FSModel) :
    ∀ (n : Nat) (f : Files), Files.rem f < n →
      drain fs n f = Files.dotsList f ++ Files.visibleList fs f ++ f.ghosts := by
  intro n
  induction n with
  | zero => intro f h; exact absurd h (Nat.not_lt_zero _)
  | succ n ih =>
    intro f h
    obtain ⟨inner, dir, df, dots, git, gi, dl, ts, gh, mi⟩ := f
    cases dots with
    | Dot =>
      have hrem : Files.rem ⟨inner, dir, df, DotsNext.DotDot, git, gi, dl, ts, gh, mi⟩ < n := by
        simp only [Files.rem, DotsNext.rank] at h ⊢
        omega
      simp only [drain, Files.next]
      rw [ih _ hrem]
      simp only [Files.dotsList, Files.visibleList, Files.parentPath,
        List.cons_append, List.nil_append]
    | DotDot =>
      have hrem : Files.rem ⟨inner, dir, df, DotsNext.Files, git, gi, dl, ts, gh, mi⟩ < n := by
        simp only [Files.rem, DotsNext.rank] at h ⊢
        omega
      simp only [drain, Files.next]
      rw [ih _ hrem]
      simp only [Files.dotsList, Files.visibleList, Files.parentPath,
        List.cons_append, List.nil_append]
    | Files =>
      simp only [drain, Files.next]
      cases hnva : nextVisibleAux fs dir df git gi dl ts mi inner with
      | mk r rest =>
        cases r with
        | some file =>
          have hs := (nva_spec fs dir df git gi dl ts mi inner).2 file rest hnva
          have hrem : Files.rem ⟨rest, dir, df, DotsNext.Files, git, gi, dl, ts, gh, mi⟩ < n := by
            simp only [Files.rem, DotsNext.rank] at h ⊢
            have := hs.2
            omega
          dsimp only
          rw [ih _ hrem]
          simp only [Files.dotsList, Files.visibleList, List.nil_append]
          rw [hs.1]
          simp only [List.cons_append]
        | none =>
          have hs := (nva_spec fs dir df git gi dl ts mi inner).1 rest hnva
          dsimp only
          cases gh with
          | nil =>
            simp only [Files.dotsList, Files.visibleList, List.nil_append,
              List.append_nil, hs.1]
          | cons g gs =>
            have hrem : Files.rem ⟨rest, dir, df, DotsNext.Files, git, gi, dl, ts, gs, mi⟩ < n := by
              simp only [Files.rem, DotsNext.rank] at h ⊢
              rw [hs.2]
              simp only [List.length_nil, List.length_cons] at h ⊢
              omega
            simp only []
            rw [ih _ hrem]
            simp only [Files.dotsList, Files.visibleList, List.nil_append, hs.1, hs.2,
              visibleAux, List.nil_append]

theorem toList_spec (fs : FSModel) (f : Files) :
    Files.toList fs f = Files.dotsList f ++ Files.visibleList fs f ++ f.ghosts :=
  drain_spec fs (Files.rem f + 1) f (Nat.lt_succ_self _)

theorem ghostStep_not_existing (pfx : String) (ex : List String) :
    ∀ (entries acc : List String), (∀ x ∈ acc, x ∉ ex) →
      ∀ x ∈ List.foldl (ghostStep pfx ex) acc entries, x ∉ ex := by
  intro entries
  induction entries with
  | nil => intro acc hacc x hx; exact hacc x hx
  | cons k ks ih =>
    intro acc hacc x hx
    rw [List.foldl_cons] at hx
    refine ih (ghostStep pfx ex acc k) ?_ x hx
    intro y hy
    unfold ghostStep at hy
    split at hy
    · exact hacc y hy
    · split at hy
      · exact hacc y hy
      · rename_i suffix hsome hne
        by_cases hex : firstComponent suffix ∈ ex
        · rw [if_pos hex] at hy
          exact hacc y hy
        · rw [if_neg hex] at hy
          split at hy
          · exact hacc y hy
          · rcases List.mem_append.mp hy with hmem | hmem
            · exact hacc y hmem
            · rw [List.mem_singleton] at hmem
              subst hmem
              exact hex

theorem ghostStep_nodup (pfx : String) (ex : List String) :
    ∀ (entries acc : List String), acc.Nodup →
      (List.foldl (ghostStep pfx ex) acc entries).Nodup := by
  intro entries
  induction entries with
  | nil => intro acc hacc; exact hacc
  | cons k ks ih =>
    intro acc hacc
    rw [List.foldl_cons]
    refine ih (ghostStep pfx ex acc k) ?_
    unfold ghostStep
    split
    · exact hacc
    · split
      · exact hacc
      · rename_i suffix hsome hne
        by_cases hex : firstComponent suffix ∈ ex
        · rw [if_pos hex]; exact hacc
        · rw [if_neg hex]
          by_cases hin : firstComponent suffix ∈ acc
          · rw [if_pos hin]; exact hacc
          · rw [if_neg hin]
            simpa [List.nodup_append] using ⟨hacc, hin⟩

theorem mem_foldl_ghostStep (pfx : String) (ex : List String) :
    ∀ (entries acc : List String) (x : String),
      x ∈ List.foldl (ghostStep pfx ex) acc entries ↔
        (x ∈ acc ∨ ∃ key ∈ entries, ∃ suffix,
          stripPrefixStr pfx key = some suffix ∧ suffix ≠ "" ∧
          firstComponent suffix = x ∧ x ∉ ex) := by
  intro entries
  induction entries with
  | nil =>
    intro acc x
    simp only [List.foldl_nil, List.not_mem_nil, false_and, exists_false,
      or_false]
  | cons k ks ih =>
    intro acc x
    rw [List.foldl_cons, ih]
    have hstep : x ∈ ghostStep pfx ex acc k ↔
        (x ∈ acc ∨ ∃ suffix, stripPrefixStr pfx k = some suffix ∧ suffix ≠ "" ∧
          firstComponent suffix = x ∧ x ∉ ex) := by
      unfold ghostStep
      split
      · rename_i hnone
        simp only [hnone]
        constructor
        · exact fun h => Or.inl h
        · rintro (h | ⟨suffix, hs, _⟩)
          · exact h
          · cases hs
      · rename_i suffix hsome
        split
        · rename_i hemp
          subst hemp
          rw [hsome]
          constructor
          · exact fun h => Or.inl h
          · rintro (h | ⟨s2, hs2, hne2, _⟩)
            · exact h
            · cases hs2; exact absurd rfl hne2
        · rename_i hne
          rw [hsome]
          by_cases hex : firstComponent suffix ∈ ex
          · rw [if_pos hex]
            constructor
            · exact fun h => Or.inl h
            · rintro (h | ⟨s2, hs2, _, hfc2, hnex2⟩)
              · exact h
              · cases hs2; subst hfc2; exact absurd hex hnex2
          · rw [if_neg hex]
            by_cases hin : firstComponent suffix ∈ acc
            · rw [if_pos hin]
              constructor
              · exact fun h => Or.inl h
              · rintro (h | ⟨s2, hs2, _, hfc2, _⟩)
                · exact h
                · cases hs2; subst hfc2; exact Or.inl hin |>.elim id id
            · rw [if_neg hin]
              rw [List.mem_append, List.mem_singleton]
              constructor
              · rintro (h | h)
                · exact Or.inl h
                · exact Or.inr ⟨suffix, rfl, hne, h.symm, h ▸ hex⟩
              · rintro (h | ⟨s2, hs2, _, hfc2, _⟩)
                · exact Or.inl h
                · cases hs2; exact Or.inr hfc2.symm
    rw [hstep]
    simp only [List.mem_cons]
    constructor
    · rintro ((h | h) | ⟨key, hk, hq⟩)
      · exact Or.inl h
      · exact Or.inr ⟨k, Or.inl rfl, h⟩
      · exact Or.inr ⟨key, Or.inr hk, hq⟩
    · rintro (h | ⟨key, hk | hk, hq⟩)
      · exact Or.inl (Or.inl h)
      · subst hk; exact Or.inl (Or.inr hq)
      · exact Or.inr ⟨key, hk, hq⟩

theorem ghostNames_not_existing (entries : List String) (pfx : String)
    (ex : List String) : ∀ x ∈ ghostNames entries pfx ex, x ∉ ex :=
  ghostStep_not_existing pfx ex entries []
    (fun x hx => absurd hx (List.not_mem_nil x))

theorem ghostNames_nodup (entries : List String) (pfx : String)
    (ex : List String) : (ghostNames entries pfx ex).Nodup :=
  ghostStep_nodup pfx ex entries [] List.nodup_nil

theorem mem_ghostNames (entries : List String) (pfx : String)
    (ex : List String) (x : String) :
    x ∈ ghostNames entries pfx ex ↔
      ∃ key ∈ entries, ∃ suffix, stripPrefixStr pfx key = some suffix ∧
        suffix ≠ "" ∧ firstComponent suffix = x ∧ x ∉ ex := by
  rw [ghostNames, mem_foldl_ghostStep]
  simp only [List.not_mem_nil, false_or]

/-- A concrete manifest fixture: src root `/repo/src` with four declared
logical paths. -/
def exKeys : List String :=
  ["//areas/tools/dev", "//areas/apps/flow", "//.hidden/x", "//areas"]

/-- The canonical path of the fixture's src root. -/
def srcP : RPath := ⟨true, ["repo", "src"]⟩

/-- The fixture's manifest file path. -/
def manifestP : RPath := ⟨true, ["repo", "src", ".meta", "manifest.json"]⟩

/-- The fixture's `areas` directory (physically present). -/
def areasP : RPath := ⟨true, ["repo", "src", "areas"]⟩

/-- The fixture's `areas/tools` path (not physically present). -/
def toolsP : RPath := ⟨true, ["repo", "src", "areas", "tools"]⟩

/-- The fixture manifest context. -/
def exMI : ManifestInfo := ⟨srcP, exKeys⟩

/-- A concrete filesystem fixture: `/repo/src` is a src root with a readable
manifest, `areas` and `areas/apps` exist physically, `areas/tools` does not,
and canonicalization is the identity on absolute paths. -/
def exFS : FSModel where
  pathExists p := decide (p ∈ [⟨true, ["repo"]⟩, srcP,
    ⟨true, ["repo", "src", ".meta"]⟩, manifestP, areasP,
    ⟨true, ["repo", "src", "areas", "apps"]⟩])
  canonicalize p := if p.abs then some p else none
  cwd := some ⟨true, ["repo"]⟩
  readManifest p := if p = manifestP then some exKeys else none
  readDir _ := Except.error 0

/-- A snapshot of `/repo/src` with one real entry, the directory `areas`. -/
def exSrcDir : Dir := ⟨[⟨areasP, some true⟩], srcP, none⟩

/-- A snapshot of `/repo/src/areas` with one real entry, the directory
`apps`. -/
def exAreasDir : Dir :=
  ⟨[⟨⟨true, ["repo", "src", "areas", "apps"]⟩, some true⟩], areasP, none⟩

/-- A ghost snapshot of the non-existent `/repo/src/areas/tools`. -/
def exToolsDir : Dir := Dir.new_ghost toolsP exMI toolsP

/-- A git capability fixture that reports every path as ignored. -/
def exGitAll : GitCache := ⟨fun _ _ => ⟨GitStatus.Ignored⟩⟩

/-- The ghost entry synthesized for `tools` when listing the fixture's
`areas` directory. -/
def exGhostTools : File :=
  File.new_ghost ⟨true, ["repo", "src", "areas", "tools"]⟩ exAreasDir "tools" false

/-- The ghost entry synthesized for `dev` when listing the fixture's ghost
`areas/tools` directory. -/
def exGhostDev : File :=
  File.new_ghost ⟨true, ["repo", "src", "areas", "tools", "dev"]⟩ exToolsDir "dev" true

/-- The ghost entry synthesized for `.hidden` when listing the fixture's src
root. -/
def exGhostHidden : File :=
  File.new_ghost ⟨true, ["repo", "src", ".hidden"]⟩ exSrcDir ".hidden" false

/-- A nested-src filesystem fixture for the broken-manifest case: both
`/a/src` and `/a/src/b/src` have a manifest file, the inner one is
unreadable or unparsable, the outer one is fine. -/
def exFS6 : FSModel where
  pathExists p := decide (p ∈ [⟨true, ["a"]⟩, ⟨true, ["a", "src"]⟩,
    ⟨true, ["a", "src", ".meta", "manifest.json"]⟩,
    ⟨true, ["a", "src", "b"]⟩, ⟨true, ["a", "src", "b", "src"]⟩,
    ⟨true, ["a", "src", "b", "src", ".meta", "manifest.json"]⟩,
    ⟨true, ["a", "src", "b", "src", "x"]⟩])
  canonicalize p := if p.abs then some p else none
  cwd := some ⟨true, ["a"]⟩
  readManifest p :=
    if p = ⟨true, ["a", "src", ".meta", "manifest.json"]⟩ then some ["//ok"]
    else none
  readDir _ := Except.error 0

/-- The path under the nested src whose nearest manifest is broken. -/
def exP6 : RPath := ⟨true, ["a", "src", "b", "src", "x"]⟩

/-- The nearest src ancestor of `exP6` with a manifest file present. -/
def exA6 : RPath := ⟨true, ["a", "src", "b", "src"]⟩

/-- A filesystem fixture whose directory read fails outright. -/
def exFSErr : FSModel where
  pathExists _ := false
  canonicalize _ := none
  cwd := none
  readManifest _ := none
  readDir _ := Except.error 7

/-- A filesystem fixture whose directory read succeeds but whose first entry
result is an error. -/
def exFSEntryErr : FSModel where
  pathExists _ := false
  canonicalize _ := none
  cwd := none
  readManifest _ := none
  readDir _ := Except.ok [Except.error 9, Except.ok ⟨⟨true, ["x", "y"]⟩, some false⟩]

/-- A freshly constructed real directory snapshot. -/
def exRealDir : Dir := Dir.new ⟨true, ["x"]⟩

/-- A ghost directory snapshot for the read claims. -/
def exGhostDir : Dir := Dir.new_ghost ⟨true, ["g"]⟩ exMI ⟨true, ["g"]⟩


/-- C1 counterexample: with the ghost-suppression flag set, constructing the
listing iterator still resolves a manifest for the directory and still
annotates a real entry with the zone flag, refuting "no manifest or ghost
work at all". -/
theorem no_ghosts_cex :
    (Dir.files exFS exSrcDir DotFilter.JustFiles none false false false true).manifest_info =
      some exMI ∧
    ∃ f ∈ Files.toList exFS
        (Dir.files exFS exSrcDir DotFilter.JustFiles none false false false true),
      f.kind = FileKind.real ∧ f.is_zone = true := by decide

/-- C1 (amended): when the ghost-suppression flag is set, `Dir::files`
synthesizes no ghost entries, but a manifest is still resolved exactly as
without the flag (and still drives zone annotation of real entries). -/
theorem no_ghosts_suppresses_only_synthesis (fs : FSModel) (d : Dir)
    (df : DotFilter) (git : Option GitCache) (gi dl ts : Bool) :
    (Dir.files fs d df git gi dl ts true).ghosts = [] ∧
    (Dir.files fs d df git gi dl ts true).manifest_info =
      (Dir.files fs d df git gi dl ts false).manifest_info :=
  ⟨rfl, rfl⟩

/-- C2: `get_ghosts` never produces a ghost whose name equals the filename of
an entry physically present in the snapshot's contents. -/
theorem ghost_name_not_physical (fs : FSModel) (d : Dir)
    (mi : Option ManifestInfo) (gc : Option RPath) (g : File)
    (hg : g ∈ get_ghosts fs d mi gc) (e : DirEntry) (he : e ∈ d.contents) :
    g.name ≠ File.filename e.epath := by
  unfold get_ghosts at hg
  split at hg
  · exact absurd hg (List.not_mem_nil g)
  · rename_i m
    split at hg
    · exact absurd hg (List.not_mem_nil g)
    · rename_i c hdc
      split at hg
      · exact absurd hg (List.not_mem_nil g)
      · rename_i pfx hpfx
        rw [List.mem_map] at hg
        obtain ⟨n, hn, hgn⟩ := hg
        have hnex : n ∉ existingNames d := ghostNames_not_existing _ _ _ n hn
        have hmem : File.filename e.epath ∈ existingNames d :=
          List.mem_map_of_mem _ he
        intro hEq
        rw [← hgn] at hEq
        simp only [File.new_ghost] at hEq
        exact hnex (hEq ▸ hmem)

/-- C2 witness: in the fixture, the `tools` ghost's name differs from the
filename of the physically present `apps` entry. -/
theorem ghost_name_not_physical_witness :
    exGhostTools.name ≠
      File.filename (RPath.mk true ["repo", "src", "areas", "apps"]) :=
  ghost_name_not_physical exFS exAreasDir (some exMI) none exGhostTools
    (by decide) ⟨⟨true, ["repo", "src", "areas", "apps"]⟩, some true⟩ (by decide)

/-- C3: a qualifying first path segment (the first component of some manifest
key's remainder after the directory's prefix, not physically present) appears
exactly once among the ghost entries, however many manifest keys share it. -/
theorem ghost_segment_once (fs : FSModel) (d : Dir) (m : ManifestInfo)
    (gc : Option RPath) (c : RPath) (pfx key suffix name : String)
    (hc : dirCanonical fs d gc = some c)
    (hp : dirPrefixStr m.src_root c = some pfx)
    (hk : key ∈ m.entries)
    (hs : stripPrefixStr pfx key = some suffix)
    (hne : suffix ≠ "")
    (hfc : firstComponent suffix = name)
    (hex : name ∉ existingNames d) :
    ((get_ghosts fs d (some m) gc).map File.name).count name = 1 := by
  have hmem : name ∈ ghostNames m.entries pfx (existingNames d) :=
    (mem_ghostNames _ _ _ _).mpr ⟨key, hk, suffix, hs, hne, hfc, hex⟩
  have hnodup := ghostNames_nodup m.entries pfx (existingNames d)
  simp only [get_ghosts, hc, hp]
  rw [List.map_map]
  have hcomp : (File.name ∘ fun name =>
      File.new_ghost (d.path.join [name]) d name (m.is_zone (pfx ++ name))) =
      fun name => name := by
    funext n
    rfl
  rw [hcomp, List.map_id']
  exact List.count_eq_one_of_mem hnodup hmem

/-- C3 witness: in the fixture's `areas` directory, the segment `tools`
(qualifying via the key `//areas/tools/dev`) appears exactly once among the
synthesized ghosts. -/
theorem ghost_segment_once_witness :
    ((get_ghosts exFS exAreasDir (some exMI) none).map File.name).count "tools" = 1 :=
  ghost_segment_once exFS exAreasDir exMI none areasP "//areas/"
    "//areas/tools/dev" "tools/dev" "tools" (by decide) (by decide) (by decide)
    (by decide) (by decide) (by decide) (by decide)

/-- C4: `is_zone` holds exactly for literal manifest keys (so it is false on
intermediate segments that merely prefix deeper keys), and a synthesized
ghost's zone flag is set exactly when prefix + name is a literal manifest
entry. -/
theorem is_zone_literal (mi : ManifestInfo) (t : String) (fs : FSModel)
    (d : Dir) (gc : Option RPath) (c : RPath) (pfx : String) (g : File) :
    (mi.is_zone t = true ↔ t ∈ mi.entries) ∧
    (dirCanonical fs d gc = some c → dirPrefixStr mi.src_root c = some pfx →
      g ∈ get_ghosts fs d (some mi) gc →
      (g.is_zone = true ↔ (pfx ++ g.name) ∈ mi.entries)) := by
  constructor
  · unfold ManifestInfo.is_zone
    exact decide_eq_true_iff
  · intro hc hp hg
    simp only [get_ghosts, hc, hp] at hg
    rw [List.mem_map] at hg
    obtain ⟨n, hn, hgn⟩ := hg
    subst hgn
    simp only [File.new_ghost, ManifestInfo.is_zone]
    exact decide_eq_true_iff

/-- C4 witness: `//areas/tools/dev` is a literal key, and the fixture's `dev`
ghost carries zone flag true accordingly. -/
theorem is_zone_literal_witness :
    (exMI.is_zone "//areas/tools/dev" = true ↔ "//areas/tools/dev" ∈ exMI.entries) ∧
    (exGhostDev.is_zone = true ↔ ("//areas/tools/" ++ exGhostDev.name) ∈ exMI.entries) :=
  ⟨(is_zone_literal exMI "//areas/tools/dev" exFS exToolsDir (some toolsP)
      toolsP "//areas/tools/" exGhostDev).1,
   (is_zone_literal exMI "//areas/tools/dev" exFS exToolsDir (some toolsP)
      toolsP "//areas/tools/" exGhostDev).2 (by decide) (by decide) (by decide)⟩

/-- C5: the listing iterator's output is exactly the dot pseudo-entries
(`.` then `..`, only when the filter enables them), then the surviving real
entries in underlying read order, then the ghost entries; and draining with
any sufficient fuel yields the same finite list, so once real and ghost
entries are exhausted the iterator never yields another entry. -/
theorem files_iteration_order (fs : FSModel) (d : Dir) (df : DotFilter)
    (git : Option GitCache) (gi dl ts ng : Bool) :
    Files.toList fs (Dir.files fs d df git gi dl ts ng) =
      (match df with
       | DotFilter.DotfilesAndDots =>
         [File.new_aa_current d ts, File.new_aa_parent (d.path.join [".."]) d ts]
       | DotFilter.Dotfiles => []
       | DotFilter.JustFiles => []) ++
      Files.visibleList fs (Dir.files fs d df git gi dl ts ng) ++
      (Dir.files fs d df git gi dl ts ng).ghosts ∧
    ∀ n, Files.rem (Dir.files fs d df git gi dl ts ng) < n →
      drain fs n (Dir.files fs d df git gi dl ts ng) =
        Files.toList fs (Dir.files fs d df git gi dl ts ng) := by
  constructor
  · rw [toList_spec]
    cases df <;> rfl
  · intro n hn
    rw [drain_spec fs n _ hn, toList_spec]

/-- C5 witness: draining the fixture's iterator with surplus fuel yields the
same list as its full output. -/
theorem files_iteration_order_witness :
    drain exFS 6 (Dir.files exFS exSrcDir DotFilter.JustFiles none false false false true) =
      Files.toList exFS (Dir.files exFS exSrcDir DotFilter.JustFiles none false false false true) :=
  (files_iteration_order exFS exSrcDir DotFilter.JustFiles none false false false true).2
    6 (by decide)

/-- C6: when the nearest `src` ancestor with a manifest file present has a
manifest that fails to open or parse, manifest resolution yields none — it
does not continue searching higher ancestors. -/
theorem broken_manifest_authoritative (fs : FSModel) (p a q : RPath)
    (hfind : findSrcRoot fs p = some a)
    (hfail : fs.readManifest (a.join [".meta", "manifest.json"]) = none)
    (hq : fs.canonicalize q = some p) :
    find_manifest_from_canonical fs p = none ∧ find_manifest fs q = none := by
  have h1 : find_manifest_from_canonical fs p = none := by
    simp only [find_manifest_from_canonical, hfind, hfail]
  exact ⟨h1, by simp only [find_manifest, hq, h1]⟩

/-- C6 witness: in the nested-src fixture the inner manifest is broken and
the outer one is readable, yet resolution from under the inner src yields
none. -/
theorem broken_manifest_authoritative_witness :
    find_manifest_from_canonical exFS6 exP6 = none ∧ find_manifest exFS6 exP6 = none :=
  broken_manifest_authoritative exFS6 exP6 exA6 exP6 (by decide) (by decide) (by decide)

/-- C7: `is_valid_ghost_dir` returns a result only if some manifest entry
begins with the target's logical path followed by a slash. -/
theorem valid_ghost_has_descendant (fs : FSModel) (path : RPath)
    (mi : ManifestInfo) (c : RPath)
    (h : is_valid_ghost_dir fs path = some (mi, c)) :
    ∃ rel, stripRoot mi.src_root c = some rel ∧
      ∃ key ∈ mi.entries,
        strIsPrefixOf ("//" ++ String.intercalate "/" rel ++ "/") key = true := by
  unfold is_valid_ghost_dir at h
  split at h
  · cases h
  · rename_i pr hfind
    obtain ⟨mi0, c0⟩ := pr
    split at h
    · cases h
    · rename_i rel hstrip
      dsimp only at h
      split at h
      · rename_i hany
        cases h
        refine ⟨rel, hstrip, ?_⟩
        simpa using List.any_eq_true.mp hany
      · cases h

/-- C7 witness: the non-existent fixture path `areas/tools` is a valid ghost
directory and indeed a key starts with `//areas/tools/`. -/
theorem valid_ghost_has_descendant_witness :
    ∃ rel, stripRoot exMI.src_root toolsP = some rel ∧
      ∃ key ∈ exMI.entries,
        strIsPrefixOf ("//" ++ String.intercalate "/" rel ++ "/") key = true :=
  valid_ghost_has_descendant exFS toolsP exMI toolsP (by decide)

/-- C8: the logical prefix `get_ghosts` computes is exactly `//` for the src
root itself, and `//` + relative path + `/` for any other directory under the
src root. -/
theorem dir_prefix_spec (src_root c : RPath) (rel : List String) :
    dirPrefixStr src_root src_root = some "//" ∧
    (stripRoot src_root c = some rel → rel ≠ [] →
      dirPrefixStr src_root c = some ("//" ++ String.intercalate "/" rel ++ "/")) := by
  constructor
  · unfold dirPrefixStr stripRoot
    rw [if_pos ⟨rfl, List.prefix_refl _⟩]
    simp [List.drop_length]
  · intro hstrip hne
    unfold dirPrefixStr
    rw [hstrip]
    simp only [List.isEmpty_iff, if_neg hne]

/-- C8 witness: for the fixture, the src root's prefix is `//` and the
`areas` subdirectory's prefix is `//areas/`. -/
theorem dir_prefix_spec_witness :
    dirPrefixStr srcP srcP = some "//" ∧ dirPrefixStr srcP areasP = some "//areas/" :=
  ⟨(dir_prefix_spec srcP areasP ["areas"]).1,
   (dir_prefix_spec srcP areasP ["areas"]).2 (by decide) (by decide)⟩

/-- C9: every synthesized ghost entry is emitted by the listing iterator, for
every dot-filter mode and git-ignore setting — ghosts are never subject to
the dotfile or git-ignore filters. -/
theorem ghost_entries_never_filtered (fs : FSModel) (d : Dir) (df : DotFilter)
    (git : Option GitCache) (gi dl ts : Bool) (g : File)
    (hg : g ∈ (Dir.files fs d df git gi dl ts false).ghosts) :
    g ∈ Files.toList fs (Dir.files fs d df git gi dl ts false) := by
  rw [toList_spec]
  exact List.mem_append.mpr (Or.inr hg)

/-- C9 witness: with dotfiles hidden and git ignoring everything, the
fixture's dot-named ghost `.hidden` is still emitted. -/
theorem ghost_entries_never_filtered_witness :
    exGhostHidden ∈ Files.toList exFS
      (Dir.files exFS exSrcDir DotFilter.JustFiles (some exGitAll) true false false false) :=
  ghost_entries_never_filtered exFS exSrcDir DotFilter.JustFiles (some exGitAll)
    true false false exGhostHidden (by decide)

/-- C10: `Dir::read` is atomic on failure — an error from the directory read
or from any entry leaves the snapshot unchanged (still empty when freshly
constructed) — and for a ghost directory it succeeds trivially, independent
of the filesystem, leaving the contents empty. -/
theorem dir_read_atomic (fs fs2 : FSModel) (d : Dir) (p : RPath)
    (mi : ManifestInfo) (cp : RPath) :
    (∀ e, d.ghost_info = none → fs.readDir d.path = Except.error e →
      Dir.read fs d = (d, some e)) ∧
    (∀ items e, d.ghost_info = none → fs.readDir d.path = Except.ok items →
      collectResults items = Except.error e → Dir.read fs d = (d, some e)) ∧
    (Dir.new p).contents = [] ∧
    (d.ghost_info.isSome = true →
      Dir.read fs d = (d, none) ∧ Dir.read fs d = Dir.read fs2 d) ∧
    Dir.read fs (Dir.new_ghost p mi cp) = (Dir.new_ghost p mi cp, none) ∧
    (Dir.new_ghost p mi cp).contents = [] := by
  refine ⟨?_, ?_, rfl, ?_, rfl, rfl⟩
  · intro e hni herr
    unfold Dir.read
    rw [if_neg (by simp [hni]), herr]
  · intro items e hni hok hcol
    unfold Dir.read
    rw [if_neg (by simp [hni]), hok]
    dsimp only
    rw [hcol]
  · intro hsome
    refine ⟨?_, ?_⟩ <;> simp only [Dir.read, if_pos hsome]

/-- C10 witness: a failing read and a failing entry both leave the fresh
snapshot untouched with the error reported, and a ghost read succeeds
identically under two different filesystems. -/
theorem dir_read_atomic_witness :
    Dir.read exFSErr exRealDir = (exRealDir, some 7) ∧
    Dir.read exFSEntryErr exRealDir = (exRealDir, some 9) ∧
    Dir.read exFSErr exGhostDir = (exGhostDir, none) ∧
    Dir.read exFSErr exGhostDir = Dir.read exFSEntryErr exGhostDir :=
  ⟨(dir_read_atomic exFSErr exFSEntryErr exRealDir srcP exMI srcP).1 7 rfl rfl,
   (dir_read_atomic exFSEntryErr exFSErr exRealDir srcP exMI srcP).2.1
     [Except.error 9, Except.ok ⟨⟨true, ["x", "y"]⟩, some false⟩] 9 rfl rfl rfl,
   ((dir_read_atomic exFSErr exFSEntryErr exGhostDir srcP exMI srcP).2.2.2.1 rfl).1,
   ((dir_read_atomic exFSErr exFSEntryErr exGhostDir srcP exMI srcP).2.2.2.1 rfl).2⟩

end Wls
